import Mathlib

/-!
Verification development for the ubvff repository (ubvff1.c, ubvff2.c, vecass.c).

The C sources are shallowly embedded below.  C `int`/`int32_t` values are
modelled as `Int` (the programs never rely on 32-bit wrap-around in the code
paths modelled here), `uint16_t`/`uint32_t` values as `Nat`, byte/char output
as `List Char` where exact bytes matter (the viewport placeholder patch) and
as a list of abstract output tokens elsewhere (the emitters format fixed-point
coordinates through C `double`s with `%.6f`; that textual formatting is
abstracted into tokens carrying the exact integer operands).  File I/O is
modelled by passing the file contents in as lists; `fopen` failure is
modelled with `Option`/explicit "missing" constructors.
-/

/-! ## Shared rounding helper

Embeds `roundInt` from ubvff1.c lines 91-98 and vecass.c (ubvff2 part)
lines 734-741; the two copies are textually identical.  C `/` and `%` on
`int` truncate toward zero, which is `Int.tdiv` / `Int.tmod`. -/

def roundInt (n d : Int) : Int :=
  let l := Int.tdiv n d
  let r := Int.tmod n d
  if r < Int.tdiv d 4 then l
  else if 0 < l then l + 1
  else l - 1

/-! ## Geometry and style model (shared by both decoders) -/

/-- A 2-D point: two signed 32-bit fixed-point values. -/
structure BinPoint where
  x : Int
  y : Int
  deriving DecidableEq, Repr

/-- Three control points of one cubic Bezier segment. -/
structure BinCubic where
  p1 : BinPoint
  p2 : BinPoint
  p3 : BinPoint
  deriving DecidableEq, Repr

/-- Color channels; `r g b` plus the unused/reserved field `z`. -/
structure BinColor where
  r : Nat
  g : Nat
  b : Nat
  z : Nat
  deriving DecidableEq, Repr

/-- Abstract output tokens for the emitted SVG markup.  One token per
`fprintf` performed by the emitter functions; coordinate formatting through
doubles is abstracted, the integer operands are kept. -/
inductive OutTok where
  | header1 (w h : Int)
  | header2
  | layerStart
  | layerEnd
  | pathStart (x y : Int)
  | moveCont (x y : Int)
  | lineTo (x y : Int)
  | cubicTo (c : BinCubic)
  | closeZ
  | pathEnd (hasFill : Bool) (fill : BinColor) (hasStroke : Bool)
      (strokeWidth : Int) (stroke : BinColor)
  | footer
  | patch (a b c d : Int)
  deriving DecidableEq, Repr

/-! ## Type 1 emitter state machine (ubvff1.c)

States from `enum SVGDUMP_STATE` in ubvff1.c lines 106-116.  Each emit
function returns (C return code, new state, emitted tokens); on a state
error the C functions return 1 without touching `svgDumpState` or writing
anything, which the model renders as `(1, s, [])`.  The `svgdump` global
gates every function (`if(!svgdump) return 0;`). -/

inductive St1 where
  | begin
  | afterHeader
  | afterStartLayer
  | afterStartPath
  | afterLine
  | afterClosePath
  | afterEndPath
  | afterEndLayer
  | afterFooter
  deriving DecidableEq, Repr

/-- Embeds `dumpSVGClosePath` from ubvff1.c lines 217-230: valid only in
state `DUMPSTATE_AFTER_LINE`. -/
def dumpSVGClosePath1 (svgdump : Bool) (s : St1) : Nat × St1 × List OutTok :=
  if !svgdump then (0, s, [])
  else if s ≠ St1.afterLine then (1, s, [])
  else (0, St1.afterClosePath, [OutTok.closeZ])

/-- Embeds `dumpSVGCubic` from ubvff1.c lines 183-200: valid in states
`AFTER_START_PATH` and `AFTER_LINE`, moves to `AFTER_LINE`. -/
def dumpSVGCubic1 (svgdump : Bool) (s : St1) (c : BinCubic) :
    Nat × St1 × List OutTok :=
  if !svgdump then (0, s, [])
  else if s ≠ St1.afterStartPath ∧ s ≠ St1.afterLine then (1, s, [])
  else (0, St1.afterLine, [OutTok.cubicTo c])

/-! ### Type 1 CMD_08_CUBIC block (ubvff1.c lines 606-634)

The handler reads a point count, then loops for `y < pcount/3` iterations,
each reading six 32-bit words (three points) and emitting one cubic.  A
short read, or an emitter error, breaks out of the inner loop only; the
main command loop then continues.  `t1CubicLoop` returns the final emitter
state, the number of cubics handed to the emitter successfully, and the
emitted tokens. -/

/-- Read six 32-bit words (one cubic) from the word stream, as the
`bo_fread(&c,4,6,f)` call does. -/
def take6 : List Int → Option (BinCubic × List Int)
  | x1 :: y1 :: x2 :: y2 :: x3 :: y3 :: rest =>
      some (⟨⟨x1, y1⟩, ⟨x2, y2⟩, ⟨x3, y3⟩⟩, rest)
  | _ => none

def t1CubicLoop (svgdump : Bool) : Nat → St1 → List Int → St1 × Nat × List OutTok
  | 0, es, _ => (es, 0, [])
  | k + 1, es, ws =>
    match take6 ws with
    | none => (es, 0, [])
    | some (c, ws') =>
      let t := dumpSVGCubic1 svgdump es c
      if t.1 ≠ 0 then (t.2.1, 0, t.2.2)
      else
        let rest := t1CubicLoop svgdump k t.2.1 ws'
        (rest.1, rest.2.1 + 1, t.2.2 ++ rest.2.2)

/-- The whole CMD_08 block: loop bound is `pcount / 3` (integer division),
so remainder points are never read. -/
def t1CubicBlock (svgdump : Bool) (es : St1) (pcount : Nat) (ws : List Int) :
    St1 × Nat × List OutTok :=
  t1CubicLoop svgdump (pcount / 3) es ws

/-! ## Type 2 emitter state machine (ubvff2 part of vecass.c)

States from `enum SVGDUMP_STATE` in the ubvff2 source (no layer states). -/

inductive St2 where
  | begin
  | afterHeader
  | afterStartPath
  | afterLine
  | afterClosePath
  | afterEndPath
  | afterFooter
  deriving DecidableEq, Repr

/-- Embeds ubvff2 `dumpSVGHeader`: valid only from `BEGIN`. -/
def dumpSVGHeader2 (svgdump : Bool) (s : St2) : Nat × St2 × List OutTok :=
  if !svgdump then (0, s, [])
  else if s ≠ St2.begin then (1, s, [])
  else (0, St2.afterHeader, [OutTok.header2])

/-- Embeds ubvff2 `dumpSVGStartPath`: from `AFTER_CLOSE_PATH` or
`AFTER_LINE` it emits a continuation move; from `AFTER_HEADER` or
`AFTER_END_PATH` it opens a new path; every other state is an error. -/
def dumpSVGStartPath2 (svgdump : Bool) (s : St2) (x y : Int) :
    Nat × St2 × List OutTok :=
  if !svgdump then (0, s, [])
  else if s = St2.afterClosePath ∨ s = St2.afterLine then
    (0, St2.afterStartPath, [OutTok.moveCont x y])
  else if s ≠ St2.afterHeader ∧ s ≠ St2.afterEndPath then (1, s, [])
  else (0, St2.afterStartPath, [OutTok.pathStart x y])

/-- Embeds ubvff2 `dumpSVGCubic`. -/
def dumpSVGCubic2 (svgdump : Bool) (s : St2) (c : BinCubic) :
    Nat × St2 × List OutTok :=
  if !svgdump then (0, s, [])
  else if s ≠ St2.afterStartPath ∧ s ≠ St2.afterLine then (1, s, [])
  else (0, St2.afterLine, [OutTok.cubicTo c])

/-- Embeds ubvff2 `dumpSVGLine`. -/
def dumpSVGLine2 (svgdump : Bool) (s : St2) (x y : Int) :
    Nat × St2 × List OutTok :=
  if !svgdump then (0, s, [])
  else if s ≠ St2.afterStartPath ∧ s ≠ St2.afterLine then (1, s, [])
  else (0, St2.afterLine, [OutTok.lineTo x y])

/-- Embeds ubvff2 `dumpSVGClosePath` (vecass.c lines 673-686): unlike the
Type 1 version this accepts `AFTER_START_PATH` as well as `AFTER_LINE`. -/
def dumpSVGClosePath2 (svgdump : Bool) (s : St2) : Nat × St2 × List OutTok :=
  if !svgdump then (0, s, [])
  else if s ≠ St2.afterLine ∧ s ≠ St2.afterStartPath then (1, s, [])
  else (0, St2.afterClosePath, [OutTok.closeZ])

/-- Embeds ubvff2 `dumpSVGEndPath`. -/
def dumpSVGEndPath2 (svgdump : Bool) (s : St2) (hasFill : Bool)
    (fill : BinColor) (hasStroke : Bool) (strokeWidth : Int)
    (stroke : BinColor) : Nat × St2 × List OutTok :=
  if !svgdump then (0, s, [])
  else if s ≠ St2.afterLine ∧ s ≠ St2.afterClosePath then (1, s, [])
  else (0, St2.afterEndPath,
        [OutTok.pathEnd hasFill fill hasStroke strokeWidth stroke])

/-- Embeds ubvff2 `dumpSVGFooter`. -/
def dumpSVGFooter2 (svgdump : Bool) (s : St2) : Nat × St2 × List OutTok :=
  if !svgdump then (0, s, [])
  else if s ≠ St2.afterEndPath then (1, s, [])
  else (0, St2.afterFooter, [OutTok.footer])

/-! ## Type 2 split-stream decoder (ubvff2 part of vecass.c, main)

The command file supplies a 7-word header, a stream of 5-word commands and
a 5-word footer; points are consumed from the separate point file through a
running cursor.  The decoder state gathers the C locals and globals of
ubvff2 `main` plus the emitter state, the point cursor and the viewport
accumulator globals updated by `bo_fread` on every 4-byte (point) read. -/

/-- The 7 16-bit header words of a Type 2 command file (`BIN_HEADER_S`). -/
structure Header2 where
  z1 : Nat
  cmdCount : Nat
  z2 : Nat
  x1 : Nat
  y1 : Nat
  x2 : Nat
  y2 : Nat
  deriving DecidableEq, Repr

/-- The 5 16-bit footer words of a Type 2 command file (`BIN_FOOTER`). -/
structure Footer2 where
  cmd : Nat
  pfilenum : Nat
  z1 : Nat
  z2 : Nat
  z3 : Nat
  deriving DecidableEq, Repr

/-- One 5-word Type 2 command (`union CMD_WORDS`): opcode plus four
parameter words, each a 16-bit value. -/
structure Cmd2 where
  w0 : Nat
  w1 : Nat
  w2 : Nat
  w3 : Nat
  w4 : Nat
  deriving DecidableEq, Repr

/-- Decoder state: C locals of ubvff2 `main` (colors, stroke width, flags,
`hasStroke`/`hasFill`), the emitter state and output, the point-file cursor
and the viewport-accumulator globals `viewMinX..viewMaxY`. -/
structure T2State where
  fill : BinColor
  stroke : BinColor
  strokeWidth : Nat
  flagA : Nat
  flagB : Nat
  hasStroke : Bool
  hasFill : Bool
  emit : St2
  pts : List BinPoint
  vminX : Int
  vminY : Int
  vmaxX : Int
  vmaxY : Int
  out : List OutTok
  deriving DecidableEq, Repr

/-- Apply an emitter call result to the state, appending its output. -/
def applyEmit (st : T2State) (t : Nat × St2 × List OutTok) : Nat × T2State :=
  (t.1, { st with emit := t.2.1, out := st.out ++ t.2.2 })

/-- The viewport accumulation performed by ubvff2 `bo_fread` on each point:
for the X value, widen the max, else the min, with an `else if`; same for
the Y value (vecass.c lines 843-851). -/
def updBounds (st : T2State) (p : BinPoint) : T2State :=
  let st1 :=
    if p.x > st.vmaxX then { st with vmaxX := p.x }
    else if p.x < st.vminX then { st with vminX := p.x }
    else st
  if p.y > st1.vmaxY then { st1 with vmaxY := p.y }
  else if p.y < st1.vminY then { st1 with vminY := p.y }
  else st1

/-- Read `n` points from the point-file cursor (`bo_fread(...,4,2*n,fin2)`):
fails when fewer remain, otherwise consumes them and folds each into the
viewport accumulator. -/
def readPts (st : T2State) (n : Nat) : Option (List BinPoint × T2State) :=
  if n ≤ st.pts.length then
    some (st.pts.take n,
          (st.pts.take n).foldl updBounds { st with pts := st.pts.drop n })
  else none

/-- Group a point list into consecutive triples, one cubic per triple. -/
def toCubics : List BinPoint → List BinCubic
  | p1 :: p2 :: p3 :: rest => ⟨p1, p2, p3⟩ :: toCubics rest
  | _ => []

/-- POINTS_LINES inner loop: emit each point, stopping (inner break) at the
first emitter error; the outer command loop continues either way. -/
def emitLines (svgdump : Bool) : T2State → List BinPoint → T2State
  | st, [] => st
  | st, p :: rest =>
    let r := applyEmit st (dumpSVGLine2 svgdump st.emit p.x p.y)
    if r.1 ≠ 0 then r.2 else emitLines svgdump r.2 rest

/-- POINTS_CUBICS inner loop, same break structure. -/
def emitCubics (svgdump : Bool) : T2State → List BinCubic → T2State
  | st, [] => st
  | st, c :: rest =>
    let r := applyEmit st (dumpSVGCubic2 svgdump st.emit c)
    if r.1 ≠ 0 then r.2 else emitCubics svgdump r.2 rest

/-- Result of one command-loop iteration: continue, break (error paths), or
finish (END_FILE). -/
inductive StepRes where
  | cont (st : T2State)
  | brk (st : T2State)
  | fin (st : T2State)
  deriving DecidableEq, Repr

/-- One iteration of the ubvff2 main command loop (vecass.c lines
1086-1222), dispatching on the opcode word. -/
def stepT2 (svgdump : Bool) (st : T2State) (c : Cmd2) : StepRes :=
  if c.w0 = 1 then
    -- END_FILE: footer, then patch the viewbox with the rounded
    -- accumulator values; both return codes are ignored by the C code.
    let st1 := (applyEmit st (dumpSVGFooter2 svgdump st.emit)).2
    let st2 :=
      if svgdump then
        { st1 with out := st1.out ++
            [OutTok.patch (roundInt st1.vminX 65536) (roundInt st1.vminY 65536)
                (roundInt st1.vmaxX 65536) (roundInt st1.vmaxY 65536)] }
      else st1
    StepRes.fin st2
  else if c.w0 = 2 then
    -- MOVE_TO
    if c.w1 ≠ 1 then StepRes.brk st
    else
      match readPts st 1 with
      | none => StepRes.brk st
      | some (ps, st1) =>
        let p := ps.headD ⟨0, 0⟩
        let r := applyEmit st1 (dumpSVGStartPath2 svgdump st1.emit p.x p.y)
        if r.1 ≠ 0 then StepRes.brk r.2 else StepRes.cont r.2
  else if c.w0 = 3 then
    -- POINTS_LINES
    if c.w1 = 0 then StepRes.brk st
    else
      match readPts st c.w1 with
      | none => StepRes.brk st
      | some (ps, st1) => StepRes.cont (emitLines svgdump st1 ps)
  else if c.w0 = 4 then
    -- POINTS_CUBICS: a count that is zero or not a multiple of three is
    -- rejected with an error break before any point is read.
    if c.w1 % 3 ≠ 0 ∨ c.w1 = 0 then StepRes.brk st
    else
      match readPts st c.w1 with
      | none => StepRes.brk st
      | some (ps, st1) => StepRes.cont (emitCubics svgdump st1 (toCubics ps))
  else if c.w0 = 5 then
    StepRes.cont { st with stroke := ⟨c.w1, c.w2, c.w3, c.w4⟩ }
  else if c.w0 = 6 then
    StepRes.cont { st with fill := ⟨c.w1, c.w2, c.w3, c.w4⟩ }
  else if c.w0 = 7 then
    -- END_PATH sub-codes
    if c.w1 = 1 then
      let st1 := (applyEmit st (dumpSVGClosePath2 svgdump st.emit)).2
      StepRes.cont { st1 with hasStroke := false, hasFill := true }
    else if c.w1 = 0 then StepRes.cont { st with hasStroke := true }
    else if c.w1 = 2 then
      let st1 := (applyEmit st (dumpSVGEndPath2 svgdump st.emit st.hasFill
        st.fill st.hasStroke (st.strokeWidth : Int) st.stroke)).2
      StepRes.cont st1
    else if c.w1 = 3 then StepRes.cont { st with hasFill := false }
    else if c.w1 = 4 ∨ c.w1 = 5 then StepRes.cont st
    else StepRes.brk st
  else if c.w0 = 8 then StepRes.cont { st with flagA := c.w1 }
  else if c.w0 = 9 then StepRes.cont { st with flagB := c.w1 }
  else if c.w0 = 10 then
    -- STROKE_WIDTH: the C statement is
    --   strokeWidth = (cmdw.words[2] << 16) & cmdw.words[1];
    StepRes.cont { st with strokeWidth := (c.w2 <<< 16) &&& c.w1 }
  else StepRes.cont st

/-- The command loop runs while commands remain (the C loop iterates at
most `cmdCount - 1` times; the caller truncates the list accordingly). -/
def runLoop (svgdump : Bool) : T2State → List Cmd2 → T2State
  | st, [] => st
  | st, c :: rest =>
    match stepT2 svgdump st c with
    | StepRes.cont st' => runLoop svgdump st' rest
    | StepRes.brk st' => st'
    | StepRes.fin st' => st'

/-- The C footer validation (vecass.c ubvff2 part, lines 991-994):
`footer.cmd != 0x01 || footer.z1 != 0 || footer.z2 != 0 || footer.z3 != 0`
rejects the file.  This is the acceptance condition. -/
def footerOkB (f : Footer2) : Bool :=
  f.cmd == 1 && f.z1 == 0 && f.z2 == 0 && f.z3 == 0

/-- Decode errors surfaced by ubvff2 `main` before the command loop. -/
inductive DecodeErr where
  | invalidHeader
  | invalidFooter
  deriving DecidableEq, Repr

/-- Initial decoder state: stroke width defaults to 0x10000 (one scale
unit), flags to 0; the fill/stroke colors and the `hasStroke`/`hasFill`
locals are uninitialized in C, so they are parameters here.  The viewport
accumulator globals start at (0, 0, 0x10000, 0x10000).  The SVG header is
emitted before the loop begins. -/
def initT2 (svgdump : Bool) (fc sc : BinColor) (hs hf : Bool)
    (pts : List BinPoint) : T2State :=
  let st : T2State :=
    ⟨fc, sc, 0x10000, 0, 0, hs, hf, St2.begin, pts, 0, 0, 0x10000, 0x10000, []⟩
  (applyEmit st (dumpSVGHeader2 svgdump st.emit)).2

/-- The ubvff2 `main` pipeline on already-read file contents: the header
check (`header.words[1] <= 0x0A` rejects), then the footer check — both
before the command loop — then at most `cmdCount - 1` command iterations. -/
def ubvff2Main (svgdump : Bool) (h : Header2) (f : Footer2)
    (cmds : List Cmd2) (pts : List BinPoint) (fc sc : BinColor)
    (hs hf : Bool) : Except DecodeErr T2State :=
  if h.cmdCount ≤ 0x0A then Except.error DecodeErr.invalidHeader
  else if footerOkB f = false then Except.error DecodeErr.invalidFooter
  else Except.ok
    (runLoop svgdump (initT2 svgdump fc sc hs hf pts)
      (cmds.take (h.cmdCount - 1)))

/-! ## Viewport patcher (vecass.c `setViewbox` lines 159-200, and the
ubvff2 `dumpSVGSetViewbox` lines 743-784)

The output file is a byte sequence; the write cursor sits at its end.  The
patch formats the four bounds with `sprintf("\"%i %i %i %i\"", ...)`, pads
with spaces up to 26 characters when shorter, seeks to byte offset 13,
writes exactly 26 bytes, and seeks back to the saved position.  The model
returns the new contents and the restored cursor position. -/

/-- C `%i` rendering of an `Int`, which matches Lean's `toString`. -/
def intChars (i : Int) : List Char := (toString i).data

/-- The formatted viewbox string: four integers, space separated, in
double quotes. -/
def viewboxStr (a b c d : Int) : List Char :=
  '"' :: (intChars a ++ ' ' :: intChars b ++ ' ' :: intChars c ++
          ' ' :: intChars d ++ ['"'])

/-- The 26 bytes actually written: the formatted string padded with
spaces when shorter than 26; only the first 26 bytes of the buffer are
written in every case. -/
def padTo26 (s : List Char) : List Char :=
  (s ++ List.replicate (26 - s.length) ' ').take 26

def viewboxField (a b c d : Int) : List Char := padTo26 (viewboxStr a b c d)

/-- Embeds vecass `setViewbox`: splice the 26-byte field over bytes
13..38 of the output and restore the cursor (its saved `ftell` value, the
end of the written output). -/
def setViewbox (out : List Char) (a b c d : Int) : List Char × Nat :=
  (out.take 13 ++ viewboxField a b c d ++ out.drop 39, out.length)

/-- Embeds ubvff2 `dumpSVGSetViewbox`: gated on `svgdump`, rounds each
bound by the Type 2 scale factor 0x10000 with `roundInt`, then performs
the identical 26-byte patch. -/
def dumpSVGSetViewbox (svgdump : Bool) (out : List Char) (a b c d : Int) :
    List Char × Nat :=
  if !svgdump then (out, out.length)
  else
    (out.take 13 ++
       viewboxField (roundInt a 65536) (roundInt b 65536)
         (roundInt c 65536) (roundInt d 65536) ++ out.drop 39,
     out.length)

/-! ## Recursive assembler (vecass.c)

`processFile` reads a command file, classifies it by its first three
32-bit header words, collects (file, layer) include references into the
global Dump List, recurses on include opcodes 3 and 4 with a global depth
counter bounded at 10, and at depth 0 finally sorts the Dump List and
splices the referenced pre-rendered fragments (`dumpFromList`). -/

/-- Embeds `addToDumpList` (vecass.c lines 108-118): an unconditional
append of the (filenum, layernum) pair at the current position.  (The C
function also reports an error when the fixed capacity of 100 entries is
exceeded, after having already stored the entry; the capacity bound is not
modelled.) -/
def addToDumpList (l : List (Nat × Nat)) (filenum layernum : Nat) :
    List (Nat × Nat) :=
  l ++ [(filenum, layernum)]

/-! ### `sortDumpList` (vecass.c lines 120-153)

A bubble sort on the layer number: for `reps` from `n-1` down to `1`, one
left-to-right pass of adjacent compare-and-swap over positions
`0..reps`, swapping exactly when the left layer number is strictly
greater.  `sweepAux a t` is one such pass carrying the current element
`a`; `passAt R` applies it to the first `R+1` positions only. -/

def sweepAux (a : Nat × Nat) : List (Nat × Nat) → List (Nat × Nat)
  | [] => [a]
  | b :: t => if b.2 < a.2 then b :: sweepAux a t else a :: sweepAux b t

def sweep : List (Nat × Nat) → List (Nat × Nat)
  | [] => []
  | a :: t => sweepAux a t

def passAt (R : Nat) (xs : List (Nat × Nat)) : List (Nat × Nat) :=
  sweep (xs.take (R + 1)) ++ xs.drop (R + 1)

def bubbleFrom : Nat → List (Nat × Nat) → List (Nat × Nat)
  | 0, xs => xs
  | R + 1, xs => bubbleFrom R (passAt (R + 1) xs)

/-- Embeds `sortDumpList`: lists of fewer than two entries are returned
unchanged, otherwise the bubble passes run with `reps` from `n-1` down. -/
def sortDumpList (xs : List (Nat × Nat)) : List (Nat × Nat) :=
  if xs.length < 2 then xs else bubbleFrom (xs.length - 1) xs

/-! ### `dumpFromList` (vecass.c lines 206-292)

Each referenced fragment file NNNNN.svg is opened (failure to open is a
non-fatal skip), its viewBox is parsed from byte offset 14 of its header
(parse failure is fatal), folded into the composite bounds accumulator,
and its body copied (not modelled byte-for-byte).  A fragment whose header
has no newline is fatal after its viewbox has already been folded.
Finally `setViewbox` patches the composite placeholder with the
accumulated bounds; the model records those patched bounds. -/

/-- A fragment file as `dumpFromList` sees it. -/
inductive Frag where
  | missing
  | bad
  | badNl (x1 y1 x2 y2 : Int)
  | ok (x1 y1 x2 y2 : Int)
  deriving DecidableEq, Repr

/-- State of the assembler: the recursion depth global, the Dump List, a
log of (depth, file id) pairs for every command file opened, the
composite bounds accumulator globals (initialized to 0, 0, 1, 1), and the
bounds last patched into the output, when any. -/
structure AsmState where
  depth : Nat
  dumpList : List (Nat × Nat)
  opened : List (Nat × Nat)
  vminX : Int
  vminY : Int
  vmaxX : Int
  vmaxY : Int
  patched : Option (Int × Int × Int × Int)
  deriving DecidableEq, Repr

def initAsmState : AsmState := ⟨0, [], [], 0, 0, 1, 1, none⟩

/-- Fold one fragment viewbox into the composite accumulator
(vecass.c lines 244-247). -/
def foldFragBounds (st : AsmState) (x1 y1 x2 y2 : Int) : AsmState :=
  { st with
    vminX := if x1 < st.vminX then x1 else st.vminX
    vminY := if y1 < st.vminY then y1 else st.vminY
    vmaxX := if x2 > st.vmaxX then x2 else st.vmaxX
    vmaxY := if y2 > st.vmaxY then y2 else st.vmaxY }

/-- The fragment loop of `dumpFromList`; returns the C return code and
the final state. -/
def dumpLoop (frag : Nat → Frag) : List (Nat × Nat) → AsmState → Nat × AsmState
  | [], st => (0, st)
  | e :: rest, st =>
    match frag e.1 with
    | Frag.missing => dumpLoop frag rest st
    | Frag.bad => (1, st)
    | Frag.badNl x1 y1 x2 y2 => (1, foldFragBounds st x1 y1 x2 y2)
    | Frag.ok x1 y1 x2 y2 => dumpLoop frag rest (foldFragBounds st x1 y1 x2 y2)

/-- Embeds `dumpFromList`: sort the Dump List, run the fragment loop, then
patch the composite viewbox with the accumulated bounds. -/
def dumpFromListM (frag : Nat → Frag) (st : AsmState) : Nat × AsmState :=
  let st1 := { st with dumpList := sortDumpList st.dumpList }
  let r := dumpLoop frag st1.dumpList st1
  if r.1 ≠ 0 then (1, r.2)
  else (0, { r.2 with
             patched := some (r.2.vminX, r.2.vminY, r.2.vmaxX, r.2.vmaxY) })

/-- A command file as `processFile` reads it: the first three 32-bit
header words, whether the second header triple can be read (group files
only; its values are unused), and the stream of 16-bit words that the
scan loop consumes after the 24-byte header. -/
structure BinFile where
  h0 : Int
  h1 : Int
  h2 : Int
  hdr2 : Bool
  cmds : List Nat
  deriving DecidableEq, Repr

/-- The include-scan loop of `processFile` (vecass.c lines 369-391),
parameterized by the recursive call `child`.  A word 0 is skipped; words
3 and 4 read the next word as an include file number and recurse with the
depth global incremented; on a successful child the depth is decremented
and the scan continues; on a failing child the loop breaks with the depth
left incremented (the C code skips the decrement on that path); a missing
parameter word breaks out of the loop.  All other words are ignored. -/
def scanLoop (child : Nat → AsmState → Option (Nat × AsmState)) :
    List Nat → AsmState → Option AsmState
  | [], st => some st
  | [c], st =>
    if c = 0 then scanLoop child [] st
    else if c = 3 ∨ c = 4 then some st   -- read failed (params): break
    else scanLoop child [] st
  | c :: inc :: rest', st =>
    if c = 0 then scanLoop child (inc :: rest') st
    else if c = 3 ∨ c = 4 then
      match child inc { st with depth := st.depth + 1 } with
      | none => none
      | some (r, st2) =>
        if r ≠ 0 then some st2
        else scanLoop child rest' { st2 with depth := st2.depth - 1 }
    else scanLoop child (inc :: rest') st

/-- Embeds `processFile` (vecass.c lines 298-407).  `fs` maps a file id to
its command-file contents (`none`: `fopen` fails), `frag` maps a file id
to its pre-rendered fragment.  The C function is recursive with no bound
other than the depth-10 guard; the model adds a fuel parameter for the
recursion and returns `none` when the fuel runs out — the depth-bound
theorem shows fuel 11 always suffices from depth 0.  The return value is
the C return code paired with the final global state. -/
def processFileF (fs : Nat → Option BinFile) (frag : Nat → Frag) :
    Nat → Nat → AsmState → Option (Nat × AsmState)
  | 0, _, _ => none
  | fuel + 1, fid, st =>
    if st.depth = 10 then some (0, st)
    else
      match fs fid with
      | none => some (1, st)
      | some f =>
        let st := { st with opened := st.opened ++ [(st.depth, fid)] }
        if f.h0 = 1 then
          -- basic include file
          if f.h1 ≠ 0 then some (1, st)
          else if st.depth = 0 then some (0, st)     -- skip.shallow
          else
            let data := (f.h2.emod 4294967296).toNat
            some (0, { st with
              dumpList := addToDumpList st.dumpList (data / 65536)
                (data % 65536) })
        else if f.h0 < 3 ∨ 100 ≤ f.h0 then some (1, st)  -- skip.type
        else if f.h0 = 3 ∧ st.depth = 0 then some (1, st) -- skip.three
        else if f.h1 = 0x48 then some (1, st)             -- skip.0x48
        else if f.h1 ≠ 0 ∨ f.h2 ≠ 0 then some (1, st)     -- skip.not_group
        else if !f.hdr2 then some (1, st)  -- read failed (header part 2)
        else
          match scanLoop (processFileF fs frag fuel) f.cmds st with
          | none => none
          | some st2 =>
            if st2.depth = 0 then
              let r := dumpFromListM frag st2
              if r.1 ≠ 0 then some (1, r.2) else some (0, r.2)
            else some (0, st2)

/-! ## Concrete example inputs used by witnesses and counterexamples -/

/-- A two-file system: file 0 is a group file whose command stream
includes file 7 twice; file 7 is a basic include file for
(filenum, layernum) = (2, 1) (its third header word is 2*65536+1). -/
def fsC2 : Nat → Option BinFile := fun n =>
  if n = 0 then some ⟨5, 0, 0, true, [3, 7, 3, 7]⟩
  else if n = 7 then some ⟨1, 0, 131073, true, []⟩
  else none

/-- No fragment file is present. -/
def frag0 : Nat → Frag := fun _ => Frag.missing

/-- A cyclic include graph: every file is a group file that includes
file 0 again. -/
def fsCyc : Nat → Option BinFile := fun _ => some ⟨5, 0, 0, true, [3, 0]⟩

/-- A single group file with no includes. -/
def fsOne : Nat → Option BinFile := fun n =>
  if n = 0 then some ⟨5, 0, 0, true, []⟩ else none

/-- An assembler state already at the maximum recursion depth. -/
def st10Asm : AsmState := { initAsmState with depth := 10 }

/-- The final state of running the assembler on `fsOne`. -/
def stFinalOne : AsmState := ⟨0, [], [(0, 0)], 0, 0, 1, 1, some (0, 0, 1, 1)⟩

/-- A Type 2 decoder state with an open path and four points remaining. -/
def stEx : T2State :=
  ⟨⟨0, 0, 0, 0⟩, ⟨0, 0, 0, 0⟩, 65536, 0, 0, false, false, St2.afterStartPath,
   [⟨0, 0⟩, ⟨1, 1⟩, ⟨2, 2⟩, ⟨3, 3⟩], 0, 0, 65536, 65536, []⟩

/-- Twelve 32-bit words, enough for two cubics. -/
def ws12 : List Int := List.replicate 12 0

/-- A Type 2 header passing the command-count check. -/
def h11 : Header2 := ⟨0, 11, 0, 0, 0, 0, 0⟩

/-- A Type 2 footer passing the C footer check. -/
def f1 : Footer2 := ⟨1, 9, 0, 0, 0⟩

def c00 : BinColor := ⟨0, 0, 0, 0⟩

/-- The bounds invariant of the assembler state: the accumulator never
shrinks below its initial rectangle, and neither do patched bounds. -/
def asmInv (st : AsmState) : Prop :=
  st.vminX ≤ 0 ∧ st.vminY ≤ 0 ∧ 1 ≤ st.vmaxX ∧ 1 ≤ st.vmaxY ∧
  (∀ a b c d, st.patched = some (a, b, c, d) →
    a ≤ 0 ∧ b ≤ 0 ∧ 1 ≤ c ∧ 1 ≤ d)

/-! ## Claim C1: the rounding rule -/

/-- Claim C1 counterexample: at n = 3, d = 4 the remainder 3 is at least
d/4 = 1, so the claim demands rounding the quotient 3/4 away from zero by
one, to 1; the code returns -1 instead (the truncated quotient is 0, so
the final branch subtracts one regardless of the sign of n). -/
theorem roundInt_claim_cex : roundInt 3 4 = -1 ∧ roundInt 3 4 ≠ 1 := by
  constructor <;> decide

/-- Claim C1 amended: for nonnegative n and positive d, roundInt returns
floor(n/d) when the remainder is below d/4; otherwise it returns
floor(n/d) + 1 when n ≥ d, but -1 when n < d (the away-from-zero
adjustment is applied to the truncated quotient and takes the negative
branch whenever that quotient is zero). -/
theorem roundInt_amended (a b : Nat) (hb : 0 < b) :
    roundInt (a : Int) (b : Int) =
      if (a : Int) % (b : Int) < (b : Int) / 4 then (a : Int) / (b : Int)
      else if (b : Int) ≤ (a : Int) then (a : Int) / (b : Int) + 1
      else -1 := by
  have hl : Int.tdiv (a : Int) (b : Int) = ((a / b : Nat) : Int) :=
    (Int.ofNat_tdiv a b).symm
  have hm : Int.tmod (a : Int) (b : Int) = ((a % b : Nat) : Int) :=
    (Int.ofNat_tmod a b).symm
  have htd4 : Int.tdiv (b : Int) 4 = ((b / 4 : Nat) : Int) :=
    (Int.ofNat_tdiv b 4).symm
  have hdv : (a : Int) / (b : Int) = ((a / b : Nat) : Int) :=
    (Int.ofNat_ediv a b).symm
  have hmd : (a : Int) % (b : Int) = ((a % b : Nat) : Int) :=
    (Int.ofNat_emod a b).symm
  have hd4 : (b : Int) / 4 = ((b / 4 : Nat) : Int) := (Int.ofNat_ediv b 4).symm
  simp only [roundInt, hl, hm, htd4, hdv, hmd, hd4]
  by_cases h1 : ((a % b : Nat) : Int) < ((b / 4 : Nat) : Int)
  · rw [if_pos h1, if_pos h1]
  · rw [if_neg h1, if_neg h1]
    by_cases h2 : b ≤ a
    · rw [if_pos (Int.ofNat_pos.mpr ((Nat.div_pos_iff hb.ne').mpr h2)),
        if_pos (Int.ofNat_le.mpr h2)]
    · rw [if_neg (fun h => h2 ((Nat.div_pos_iff hb.ne').mp (Int.ofNat_pos.mp h))),
        if_neg (fun h => h2 (Int.ofNat_le.mp h)),
        Nat.div_eq_of_lt (Nat.lt_of_not_le h2)]
      rfl

theorem roundInt_amended_wit :
    0 < 2 ∧ roundInt ((7 : Nat) : Int) ((2 : Nat) : Int) =
      (if ((7 : Nat) : Int) % ((2 : Nat) : Int) < ((2 : Nat) : Int) / 4
       then ((7 : Nat) : Int) / ((2 : Nat) : Int)
       else if ((2 : Nat) : Int) ≤ ((7 : Nat) : Int)
       then ((7 : Nat) : Int) / ((2 : Nat) : Int) + 1
       else -1) :=
  ⟨by decide, roundInt_amended 7 2 (by decide)⟩

/-! ## Claim C2: Dump List deduplication -/

/-- Claim C2 counterexample: a full assembler run on a group file that
includes the same basic-include file twice ends with two identical Dump
List entries carrying file identifier 2, and appending an entry whose
file identifier is already present changes the list. -/
theorem dumpList_dedup_cex :
    (processFileF fsC2 frag0 11 0 initAsmState).map (fun p => p.2.dumpList) =
      some [(2, 1), (2, 1)] ∧
    addToDumpList [(2, 1)] 2 1 ≠ [(2, 1)] := ⟨rfl, by decide⟩

/-- Claim C2 amended: the Dump List is not deduplicated.  addToDumpList
appends its reference unconditionally, so adding a reference whose file
identifier is already in the list always grows the list by that entry. -/
theorem addToDumpList_amended (l : List (Nat × Nat)) (f n : Nat) :
    addToDumpList l f n = l ++ [(f, n)] ∧ addToDumpList l f n ≠ l := by
  refine ⟨rfl, fun h => ?_⟩
  have := congrArg List.length h
  simp [addToDumpList] at this

/-! ## Claim C3: Type 2 footer validation -/

/-- Claim C3 counterexample: a footer whose terminator opcode and all
three reserved words are exactly zero is rejected — the code requires the
terminator opcode to equal 0x01, not zero. -/
theorem footer_claim_cex :
    footerOkB ⟨0, 9, 0, 0, 0⟩ = false ∧
    ubvff2Main true h11 ⟨0, 9, 0, 0, 0⟩ [] [] c00 c00 false false =
      Except.error DecodeErr.invalidFooter := ⟨rfl, rfl⟩

/-- Claim C3 amended: given a header that passes the command-count check,
the footer is accepted if and only if its terminator opcode equals 0x01
and all three reserved words are zero; a failing footer check rejects the
file before the command loop, for every command list and point list. -/
theorem footerCheck_amended (sd : Bool) (h : Header2) (f : Footer2)
    (cmds : List Cmd2) (pts : List BinPoint) (fc sc : BinColor)
    (hs hf : Bool) (hh : 0x0A < h.cmdCount) :
    (footerOkB f = true ↔ (f.cmd = 1 ∧ f.z1 = 0 ∧ f.z2 = 0 ∧ f.z3 = 0)) ∧
    (footerOkB f = false →
      ubvff2Main sd h f cmds pts fc sc hs hf =
        Except.error DecodeErr.invalidFooter) ∧
    (footerOkB f = true →
      ∃ st, ubvff2Main sd h f cmds pts fc sc hs hf = Except.ok st) := by
  refine ⟨?_, ?_, ?_⟩
  · simp [footerOkB, and_assoc]
  · intro hf0
    simp [ubvff2Main, Nat.not_le.mpr hh, hf0]
  · intro hf1
    refine ⟨runLoop sd (initT2 sd fc sc hs hf pts)
      (cmds.take (h.cmdCount - 1)), ?_⟩
    simp [ubvff2Main, Nat.not_le.mpr hh, hf1]

theorem footerCheck_wit :
    0x0A < h11.cmdCount ∧
    ((footerOkB f1 = true ↔
        (f1.cmd = 1 ∧ f1.z1 = 0 ∧ f1.z2 = 0 ∧ f1.z3 = 0)) ∧
     (footerOkB f1 = false →
       ubvff2Main true h11 f1 [] [] c00 c00 false false =
         Except.error DecodeErr.invalidFooter) ∧
     (footerOkB f1 = true →
       ∃ st, ubvff2Main true h11 f1 [] [] c00 c00 false false =
         Except.ok st)) :=
  ⟨by decide,
   footerCheck_amended true h11 f1 [] [] c00 c00 false false (by decide)⟩

/-! ## Claim C4: the close-path emit operation -/

/-- Claim C4 counterexample: the Type 2 close-path emitter accepts state
AFTER_START_PATH — which is not immediately after a line or cubic — and
succeeds, changing state and writing output. -/
theorem closePath_claim_cex :
    dumpSVGClosePath2 true St2.afterStartPath =
      (0, St2.afterClosePath, [OutTok.closeZ]) ∧
    St2.afterStartPath ≠ St2.afterLine := ⟨rfl, by decide⟩

/-- Claim C4 amended: with output enabled, the Type 1 close-path emitter
succeeds exactly in state afterLine, and the Type 2 close-path emitter
succeeds exactly in states afterLine and afterStartPath; in every other
state each fails with return code 1, leaves the state unchanged and
writes nothing. -/
theorem closePath_amended (s1 : St1) (s2 : St2) :
    dumpSVGClosePath1 true s1 =
      (if s1 = St1.afterLine then (0, St1.afterClosePath, [OutTok.closeZ])
       else (1, s1, [])) ∧
    dumpSVGClosePath2 true s2 =
      (if s2 = St2.afterLine ∨ s2 = St2.afterStartPath
       then (0, St2.afterClosePath, [OutTok.closeZ])
       else (1, s2, [])) := by
  constructor
  · cases s1 <;> rfl
  · cases s2 <;> rfl

/-! ## Claim C5: the stroke-width reconstruction -/

/-- Claim C5: a STROKE_WIDTH command (opcode 0x0A) sets the stroke width
to the second parameter word shifted left 16 bits combined with the first
parameter word by bitwise AND; since the parameter words are 16-bit
values, that AND of disjoint bit ranges is always zero (it is not the OR
of a high and a low half). -/
theorem strokeWidth_step (sd : Bool) (st : T2State) (c : Cmd2)
    (h : c.w0 = 10) :
    stepT2 sd st c =
      StepRes.cont { st with strokeWidth := (c.w2 <<< 16) &&& c.w1 } ∧
    (c.w1 < 65536 → (c.w2 <<< 16) &&& c.w1 = 0) := by
  constructor
  · simp [stepT2, h]
  · intro hw
    apply Nat.eq_of_testBit_eq
    intro i
    rw [Nat.testBit_and, Nat.zero_testBit]
    rcases Nat.lt_or_ge i 16 with hi | hi
    · rw [Nat.testBit_shiftLeft]
      simp [Nat.not_le.mpr hi]
    · have hw2 : c.w1 < 2 ^ i :=
        Nat.lt_of_lt_of_le (by norm_num at hw ⊢; exact hw)
          (Nat.pow_le_pow_right (by norm_num) hi)
      rw [Nat.testBit_lt_two_pow hw2]
      simp

theorem strokeWidth_wit :
    stepT2 true stEx ⟨10, 5, 7, 0, 0⟩ =
      StepRes.cont { stEx with strokeWidth := (7 <<< 16) &&& 5 } ∧
    ((7 : Nat) <<< 16) &&& 5 = 0 :=
  ⟨(strokeWidth_step true stEx ⟨10, 5, 7, 0, 0⟩ rfl).1,
   (strokeWidth_step true stEx ⟨10, 5, 7, 0, 0⟩ rfl).2 (by decide)⟩

/-! ## Claim C6: cubic segment counts -/

theorem t1CubicLoop_count (k : Nat) :
    ∀ (es : St1) (ws : List Int),
      (es = St1.afterStartPath ∨ es = St1.afterLine) →
      6 * k ≤ ws.length →
      (t1CubicLoop true k es ws).2.1 = k := by
  induction k with
  | zero => intro es ws _ _; rfl
  | succ k ih =>
    intro es ws hes hlen
    rcases ws with _ | ⟨x1, ws⟩
    · simp only [List.length_nil] at hlen; omega
    rcases ws with _ | ⟨y1, ws⟩
    · simp only [List.length_cons, List.length_nil] at hlen; omega
    rcases ws with _ | ⟨x2, ws⟩
    · simp only [List.length_cons, List.length_nil] at hlen; omega
    rcases ws with _ | ⟨y2, ws⟩
    · simp only [List.length_cons, List.length_nil] at hlen; omega
    rcases ws with _ | ⟨x3, ws⟩
    · simp only [List.length_cons, List.length_nil] at hlen; omega
    rcases ws with _ | ⟨y3, rest⟩
    · simp only [List.length_cons, List.length_nil] at hlen; omega
    have hstep : dumpSVGCubic1 true es ⟨⟨x1, y1⟩, ⟨x2, y2⟩, ⟨x3, y3⟩⟩ =
        (0, St1.afterLine,
         [OutTok.cubicTo ⟨⟨x1, y1⟩, ⟨x2, y2⟩, ⟨x3, y3⟩⟩]) := by
      rcases hes with h | h <;> subst h <;> rfl
    have hrest : 6 * k ≤ rest.length := by
      simp only [List.length_cons] at hlen; omega
    simp only [t1CubicLoop, take6, hstep]
    simp [ih St1.afterLine rest (Or.inr rfl) hrest]

/-- Claim C6 amended: the Type 1 cubic block emits exactly pcount / 3
cubics (any remainder is ignored) whenever the emitter is in a legal
state and enough words remain; the Type 2 decoder instead rejects a
POINTS_CUBICS command whose declared point count is zero or not a
multiple of three, aborting the command loop with the state unchanged and
no cubic emitted. -/
theorem cubicCount_amended :
    (∀ (es : St1) (pcount : Nat) (ws : List Int),
      (es = St1.afterStartPath ∨ es = St1.afterLine) →
      6 * (pcount / 3) ≤ ws.length →
      (t1CubicBlock true es pcount ws).2.1 = pcount / 3) ∧
    (∀ (sd : Bool) (st : T2State) (c : Cmd2),
      c.w0 = 4 → (c.w1 % 3 ≠ 0 ∨ c.w1 = 0) →
      stepT2 sd st c = StepRes.brk st) := by
  constructor
  · intro es pcount ws hes hlen
    exact t1CubicLoop_count (pcount / 3) es ws hes hlen
  · intro sd st c h hw
    simp [stepT2, h, hw]

/-- Claim C6 counterexample: a Type 2 POINTS_CUBICS command with declared
point count 4 — where floor(4/3) = 1 segment should be emitted with the
remainder ignored — fails instead: the decoder breaks out of the command
loop and emits nothing, even though four points are available. -/
theorem cubic_claim_cex :
    stepT2 true stEx ⟨4, 4, 0, 0, 0⟩ = StepRes.brk stEx ∧
    stEx.pts.length = 4 ∧ (4 : Nat) / 3 = 1 := ⟨rfl, rfl, rfl⟩

theorem cubicCount_wit :
    (t1CubicBlock true St1.afterStartPath 7 ws12).2.1 = 7 / 3 ∧
    stepT2 true stEx ⟨4, 5, 0, 0, 0⟩ = StepRes.brk stEx :=
  ⟨cubicCount_amended.1 St1.afterStartPath 7 ws12 (Or.inl rfl) (by decide),
   cubicCount_amended.2 true stEx ⟨4, 5, 0, 0, 0⟩ rfl (by decide)⟩

/-! ## Claim C8: stability of the Dump List sort -/

theorem sweepAux_length (t : List (Nat × Nat)) :
    ∀ a, (sweepAux a t).length = t.length + 1 := by
  induction t with
  | nil => intro a; rfl
  | cons b t ih => intro a; simp only [sweepAux]; split <;> simp [ih]

theorem sweepAux_perm (t : List (Nat × Nat)) :
    ∀ a, List.Perm (sweepAux a t) (a :: t) := by
  induction t with
  | nil => intro a; exact List.Perm.refl _
  | cons b t ih =>
    intro a
    simp only [sweepAux]; split
    · exact ((ih a).cons b).trans (List.Perm.swap a b t)
    · exact (ih b).cons a

theorem sweepAux_filter (k : Nat) (t : List (Nat × Nat)) :
    ∀ a, (sweepAux a t).filter (fun e => e.2 == k) =
      (a :: t).filter (fun e => e.2 == k) := by
  induction t with
  | nil => intro a; rfl
  | cons b t ih =>
    intro a
    simp only [sweepAux]
    split
    · rename_i hba
      by_cases ha : a.2 = k <;> by_cases hb : b.2 = k
      · exfalso; omega
      · simp [List.filter_cons, ih, ha, hb]
      · simp [List.filter_cons, ih, ha, hb]
      · simp [List.filter_cons, ih, ha, hb]
    · simp [List.filter_cons, ih]

theorem sweepAux_max (t : List (Nat × Nat)) :
    ∀ a, ∃ ys m, sweepAux a t = ys ++ [m] ∧ ∀ e ∈ a :: t, e.2 ≤ m.2 := by
  induction t with
  | nil =>
    intro a
    exact ⟨[], a, rfl, by simp⟩
  | cons b t ih =>
    intro a
    simp only [sweepAux]
    split
    · rename_i hba
      obtain ⟨ys, m, heq, hmax⟩ := ih a
      refine ⟨b :: ys, m, by rw [heq]; rfl, ?_⟩
      intro e he
      rcases he with _ | ⟨_, he⟩
      · exact hmax a (List.mem_cons_self a t)
      rcases he with _ | ⟨_, he⟩
      · exact le_trans (le_of_lt hba) (hmax a (List.mem_cons_self a t))
      · exact hmax e (List.mem_cons_of_mem a he)
    · rename_i hba
      obtain ⟨ys, m, heq, hmax⟩ := ih b
      refine ⟨a :: ys, m, by rw [heq]; rfl, ?_⟩
      intro e he
      rcases he with _ | ⟨_, he⟩
      · exact le_trans (Nat.le_of_not_lt hba) (hmax b (List.mem_cons_self b t))
      · exact hmax e he

theorem sweep_length (xs : List (Nat × Nat)) : (sweep xs).length = xs.length := by
  cases xs with
  | nil => rfl
  | cons a t => exact sweepAux_length t a

theorem sweep_perm (xs : List (Nat × Nat)) : List.Perm (sweep xs) xs := by
  cases xs with
  | nil => exact List.Perm.refl _
  | cons a t => exact sweepAux_perm t a

theorem sweep_filter (k : Nat) (xs : List (Nat × Nat)) :
    (sweep xs).filter (fun e => e.2 == k) = xs.filter (fun e => e.2 == k) := by
  cases xs with
  | nil => rfl
  | cons a t => exact sweepAux_filter k t a

theorem sweep_max (xs : List (Nat × Nat)) (hne : xs ≠ []) :
    ∃ ys m, sweep xs = ys ++ [m] ∧ ∀ e ∈ xs, e.2 ≤ m.2 := by
  cases xs with
  | nil => exact absurd rfl hne
  | cons a t => exact sweepAux_max t a

theorem passAt_length (R : Nat) (xs : List (Nat × Nat)) :
    (passAt R xs).length = xs.length := by
  simp only [passAt, List.length_append, sweep_length, List.length_take,
    List.length_drop]
  omega

theorem passAt_perm (R : Nat) (xs : List (Nat × Nat)) :
    List.Perm (passAt R xs) xs := by
  have h1 : List.Perm (sweep (xs.take (R + 1)) ++ xs.drop (R + 1))
      (xs.take (R + 1) ++ xs.drop (R + 1)) :=
    (sweep_perm _).append_right _
  rw [List.take_append_drop] at h1
  exact h1

theorem bubbleFrom_append (R : Nat) :
    ∀ (as bs : List (Nat × Nat)), R + 1 ≤ as.length →
      bubbleFrom R (as ++ bs) = bubbleFrom R as ++ bs := by
  induction R with
  | zero => intro as bs _; rfl
  | succ R ih =>
    intro as bs h
    have hpass : passAt (R + 1) (as ++ bs) = passAt (R + 1) as ++ bs := by
      simp only [passAt]
      rw [List.take_append_of_le_length (by omega),
        List.drop_append_of_le_length (by omega), List.append_assoc]
    show bubbleFrom R (passAt (R + 1) (as ++ bs)) = _
    rw [hpass, ih (passAt (R + 1) as) bs (by rw [passAt_length]; omega)]
    rfl

theorem bubbleFrom_perm (R : Nat) :
    ∀ xs : List (Nat × Nat), List.Perm (bubbleFrom R xs) xs := by
  induction R with
  | zero => intro xs; exact List.Perm.refl _
  | succ R ih =>
    intro xs
    exact (ih (passAt (R + 1) xs)).trans (passAt_perm (R + 1) xs)

theorem bubbleFrom_sorted_stable (R : Nat) :
    ∀ xs : List (Nat × Nat), xs.length = R + 1 →
      List.Pairwise (fun x y : Nat × Nat => x.2 ≤ y.2) (bubbleFrom R xs) ∧
      ∀ k, (bubbleFrom R xs).filter (fun e => e.2 == k) =
        xs.filter (fun e => e.2 == k) := by
  induction R with
  | zero =>
    intro xs hlen
    rcases xs with _ | ⟨x, _ | ⟨y, t⟩⟩
    · exact absurd hlen (by simp)
    · exact ⟨List.Pairwise.cons (by simp) List.Pairwise.nil, fun k => rfl⟩
    · simp only [List.length_cons] at hlen; omega
  | succ R ih =>
    intro xs hlen
    have hne : xs ≠ [] := by
      intro h; rw [h] at hlen; simp at hlen
    have h1 : bubbleFrom (R + 1) xs = bubbleFrom R (sweep xs) := by
      show bubbleFrom R (passAt (R + 1) xs) = _
      have : passAt (R + 1) xs = sweep xs := by
        simp only [passAt]
        rw [List.take_of_length_le (by omega), List.drop_eq_nil_of_le (by omega),
          List.append_nil]
      rw [this]
    obtain ⟨ys, m, heq, hmax⟩ := sweep_max xs hne
    have hyslen : ys.length = R + 1 := by
      have := sweep_length xs
      rw [heq] at this
      simp only [List.length_append, List.length_cons, List.length_nil] at this
      omega
    have h2 : bubbleFrom R (ys ++ [m]) = bubbleFrom R ys ++ [m] :=
      bubbleFrom_append R ys [m] (by omega)
    obtain ⟨hsort, hfilt⟩ := ih ys hyslen
    constructor
    · rw [h1, heq, h2]
      refine List.pairwise_append.mpr ⟨hsort, by simp, ?_⟩
      intro x hx y hy
      rw [List.mem_singleton] at hy
      subst hy
      have hx1 : x ∈ ys := ((bubbleFrom_perm R ys).mem_iff).mp hx
      have hx2 : x ∈ sweep xs := by
        rw [heq]; exact List.mem_append_left _ hx1
      exact hmax x ((sweep_perm xs).mem_iff.mp hx2)
    · intro k
      rw [h1, heq, h2, List.filter_append, hfilt k, ← List.filter_append,
        ← heq, sweep_filter]

/-- Claim C8: sortDumpList is a stable sort by layer identifier: the
result is pairwise nondecreasing in the layer number, and for every layer
value the subsequence of entries carrying it is exactly the same, in the
same order, as in the input (entries with equal layer identifiers keep
their original relative order). -/
theorem sortDumpList_stable (xs : List (Nat × Nat)) (k : Nat) :
    List.Pairwise (fun x y : Nat × Nat => x.2 ≤ y.2) (sortDumpList xs) ∧
    (sortDumpList xs).filter (fun e => e.2 == k) =
      xs.filter (fun e => e.2 == k) := by
  unfold sortDumpList
  by_cases hl : xs.length < 2
  · rw [if_pos hl]
    rcases xs with _ | ⟨a, _ | ⟨b, t⟩⟩
    · exact ⟨by simp, rfl⟩
    · exact ⟨by simp, rfl⟩
    · simp at hl; omega
  · rw [if_neg hl]
    have := bubbleFrom_sorted_stable (xs.length - 1) xs (by omega)
    exact ⟨this.1, this.2 k⟩


/-! ## Claim C9: the 26-byte viewport patch -/

theorem viewboxField_length (a b c d : Int) :
    (viewboxField a b c d).length = 26 := by
  simp only [viewboxField, padTo26, List.length_take, List.length_append,
    List.length_replicate]
  omega

/-- Claim C9: the viewport patch leaves the write cursor at its prior
position (the end of the written output), preserves the output length,
overwrites exactly bytes 13..38 with the formatted field and touches
nothing else, and the patched field is exactly 26 characters wide
whatever the magnitude or sign of the four bounds; the ubvff2 variant
performs the identical patch after rounding each bound by the scale
factor 0x10000. -/
theorem setViewbox_spec (out : List Char) (a b c d : Int)
    (h : 39 ≤ out.length) :
    (setViewbox out a b c d).2 = out.length ∧
    (setViewbox out a b c d).1.length = out.length ∧
    (setViewbox out a b c d).1.take 13 = out.take 13 ∧
    (setViewbox out a b c d).1.drop 39 = out.drop 39 ∧
    ((setViewbox out a b c d).1.drop 13).take 26 = viewboxField a b c d ∧
    (viewboxField a b c d).length = 26 ∧
    dumpSVGSetViewbox true out a b c d =
      setViewbox out (roundInt a 65536) (roundInt b 65536)
        (roundInt c 65536) (roundInt d 65536) := by
  have htk : (out.take 13).length = 13 := by
    rw [List.length_take]; omega
  have hfl := viewboxField_length a b c d
  have hcomb : (out.take 13 ++ viewboxField a b c d).length = 39 := by
    rw [List.length_append, htk, hfl]
  refine ⟨rfl, ?_, ?_, ?_, ?_, hfl, rfl⟩
  · simp only [setViewbox, List.length_append, htk, hfl, List.length_drop]
    omega
  · show ((out.take 13 ++ viewboxField a b c d) ++ out.drop 39).take 13 =
      out.take 13
    rw [List.append_assoc, List.take_left' htk]
  · show ((out.take 13 ++ viewboxField a b c d) ++ out.drop 39).drop 39 =
      out.drop 39
    rw [List.drop_left' hcomb]
  · show (((out.take 13 ++ viewboxField a b c d) ++ out.drop 39).drop 13).take 26
      = viewboxField a b c d
    rw [List.append_assoc, List.drop_left' htk, List.take_left' hfl]

theorem setViewbox_wit :
    39 ≤ (List.replicate 40 'x').length ∧
    ((setViewbox (List.replicate 40 'x') (-12) (-3) 4567 8).2 =
        (List.replicate 40 'x').length ∧
      (setViewbox (List.replicate 40 'x') (-12) (-3) 4567 8).1.length =
        (List.replicate 40 'x').length ∧
      (setViewbox (List.replicate 40 'x') (-12) (-3) 4567 8).1.take 13 =
        (List.replicate 40 'x').take 13 ∧
      (setViewbox (List.replicate 40 'x') (-12) (-3) 4567 8).1.drop 39 =
        (List.replicate 40 'x').drop 39 ∧
      ((setViewbox (List.replicate 40 'x') (-12) (-3) 4567 8).1.drop 13).take 26
        = viewboxField (-12) (-3) 4567 8 ∧
      (viewboxField (-12) (-3) 4567 8).length = 26 ∧
      dumpSVGSetViewbox true (List.replicate 40 'x') (-12) (-3) 4567 8 =
        setViewbox (List.replicate 40 'x') (roundInt (-12) 65536)
          (roundInt (-3) 65536) (roundInt 4567 65536) (roundInt 8 65536)) :=
  ⟨by decide, setViewbox_spec (List.replicate 40 'x') (-12) (-3) 4567 8
    (by decide)⟩


/-! ## Claim C7: the recursion depth bound -/

theorem dumpLoop_state (frag : Nat → Frag) :
    ∀ (l : List (Nat × Nat)) (s : AsmState),
      (dumpLoop frag l s).2.depth = s.depth ∧
      (dumpLoop frag l s).2.opened = s.opened := by
  intro l
  induction l with
  | nil => intro s; exact ⟨rfl, rfl⟩
  | cons e rest ih =>
    intro s
    simp only [dumpLoop]
    cases frag e.1 with
    | missing => exact ih s
    | bad => exact ⟨rfl, rfl⟩
    | badNl x1 y1 x2 y2 => exact ⟨rfl, rfl⟩
    | ok x1 y1 x2 y2 => exact ih (foldFragBounds s x1 y1 x2 y2)

theorem dumpFromListM_state (frag : Nat → Frag) (s : AsmState) :
    (dumpFromListM frag s).2.depth = s.depth ∧
    (dumpFromListM frag s).2.opened = s.opened := by
  obtain ⟨h1, h2⟩ := dumpLoop_state frag
    (sortDumpList s.dumpList) { s with dumpList := sortDumpList s.dumpList }
  simp only [dumpFromListM]
  split <;> exact ⟨h1, h2⟩

theorem scanLoop_props (child : Nat → AsmState → Option (Nat × AsmState))
    (lb : Nat)
    (hchild : ∀ fid s, lb + 1 ≤ s.depth → s.depth ≤ 10 →
      ∃ r s', child fid s = some (r, s') ∧
        s.depth ≤ s'.depth ∧ (s.depth ≤ 9 → s'.depth ≤ 9) ∧
        (s.depth = 10 → r = 0 ∧ s' = s) ∧
        (∀ x ∈ s'.opened, x ∈ s.opened ∨ x.1 ≤ 9)) :
    ∀ (n : Nat) (cmds : List Nat) (st : AsmState), cmds.length ≤ n →
      lb ≤ st.depth → st.depth ≤ 9 →
      ∃ st', scanLoop child cmds st = some st' ∧
        lb ≤ st'.depth ∧ st'.depth ≤ 9 ∧
        (∀ x ∈ st'.opened, x ∈ st.opened ∨ x.1 ≤ 9) := by
  intro n
  induction n with
  | zero =>
    intro cmds st hlen h1 h2
    rcases cmds with _ | ⟨c, rest⟩
    · exact ⟨st, rfl, h1, h2, fun x hx => Or.inl hx⟩
    · simp at hlen
  | succ n ih =>
    intro cmds st hlen h1 h2
    rcases cmds with _ | ⟨c, rest⟩
    · exact ⟨st, rfl, h1, h2, fun x hx => Or.inl hx⟩
    rcases rest with _ | ⟨inc, rest'⟩
    · -- a single trailing word: every branch ends the loop at st
      simp only [scanLoop]
      by_cases hc0 : c = 0
      · rw [if_pos hc0]
        exact ⟨st, rfl, h1, h2, fun x hx => Or.inl hx⟩
      rw [if_neg hc0]
      by_cases hc34 : c = 3 ∨ c = 4
      · rw [if_pos hc34]
        exact ⟨st, rfl, h1, h2, fun x hx => Or.inl hx⟩
      · rw [if_neg hc34]
        exact ⟨st, rfl, h1, h2, fun x hx => Or.inl hx⟩
    · -- at least two words remain
      simp only [scanLoop]
      have hlen2 : (inc :: rest').length ≤ n := by
        simp only [List.length_cons] at hlen ⊢; omega
      by_cases hc0 : c = 0
      · rw [if_pos hc0]
        exact ih (inc :: rest') st hlen2 h1 h2
      rw [if_neg hc0]
      by_cases hc34 : c = 3 ∨ c = 4
      · rw [if_pos hc34]
        obtain ⟨r, s2, hcall, hmono0, himp0, h100, hop0⟩ :=
          hchild inc { st with depth := st.depth + 1 }
            (by show lb + 1 ≤ st.depth + 1; omega)
            (by show st.depth + 1 ≤ 10; omega)
        have hmono : st.depth + 1 ≤ s2.depth := hmono0
        have himp : st.depth + 1 ≤ 9 → s2.depth ≤ 9 := himp0
        have h10 : st.depth + 1 = 10 →
            r = 0 ∧ s2 = { st with depth := st.depth + 1 } := h100
        have hop : ∀ x ∈ s2.opened, x ∈ st.opened ∨ x.1 ≤ 9 := hop0
        simp only [hcall]
        by_cases hr : r ≠ 0
        · rw [if_pos hr]
          refine ⟨s2, rfl, by omega, ?_, fun x hx => hop x hx⟩
          by_cases hd9 : st.depth = 9
          · exact absurd (h10 (by omega)).1 hr
          · exact himp (by omega)
        · rw [if_neg hr]
          have hlen3 : rest'.length ≤ n := by
            simp only [List.length_cons] at hlen; omega
          have hs2d : s2.depth ≤ 10 := by
            by_cases hd9 : st.depth = 9
            · rw [(h10 (by omega)).2]
              show st.depth + 1 ≤ 10
              omega
            · exact Nat.le_trans (himp (by omega)) (by omega)
          obtain ⟨st', hsc, hlb', h9', hop'⟩ :=
            ih rest' { s2 with depth := s2.depth - 1 } hlen3
              (by show lb ≤ s2.depth - 1; omega) (by show s2.depth - 1 ≤ 9; omega)
          refine ⟨st', hsc, hlb', h9', fun x hx => ?_⟩
          rcases hop' x hx with hx2 | hx2
          · rcases hop x hx2 with hx3 | hx3
            · exact Or.inl hx3
            · exact Or.inr hx3
          · exact Or.inr hx2
      · rw [if_neg hc34]
        exact ih (inc :: rest') st hlen2 h1 h2

theorem processFileF_props (fs : Nat → Option BinFile) (frag : Nat → Frag) :
    ∀ (fuel fid : Nat) (st : AsmState), st.depth ≤ 10 → 10 - st.depth < fuel →
      ∃ r st', processFileF fs frag fuel fid st = some (r, st') ∧
        st.depth ≤ st'.depth ∧ (st.depth ≤ 9 → st'.depth ≤ 9) ∧
        (st.depth = 10 → r = 0 ∧ st' = st) ∧
        (∀ x ∈ st'.opened, x ∈ st.opened ∨ x.1 ≤ 9) := by
  intro fuel
  induction fuel with
  | zero => intro fid st h10 hf; omega
  | succ fuel ih =>
    intro fid st h10 hf
    by_cases hd : st.depth = 10
    · refine ⟨0, st, ?_, Nat.le_refl _, fun h => h, fun _ => ⟨rfl, rfl⟩,
        fun x hx => Or.inl hx⟩
      simp [processFileF, hd]
    · have hd9 : st.depth ≤ 9 := by omega
      rcases hfs : fs fid with _ | f
      · refine ⟨1, st, ?_, Nat.le_refl _, fun h => h, fun h => absurd h hd,
          fun x hx => Or.inl hx⟩
        simp [processFileF, hd, hfs]
      · have hOop : ∀ x ∈ st.opened ++ [(st.depth, fid)],
            x ∈ st.opened ∨ x.1 ≤ 9 := by
          intro x hx
          rcases List.mem_append.mp hx with hx | hx
          · exact Or.inl hx
          · rw [List.mem_singleton] at hx
            subst hx
            exact Or.inr hd9
        by_cases h01 : f.h0 = 1
        · by_cases h1z : f.h1 = 0
          · by_cases hde0 : st.depth = 0
            · refine ⟨0, { st with opened := st.opened ++ [(st.depth, fid)] },
                ?_, Nat.le_refl _, fun h => h, fun h => absurd h hd, hOop⟩
              simp [processFileF, hd, hfs, h01, h1z, hde0]
            · refine ⟨0, { st with
                  opened := st.opened ++ [(st.depth, fid)],
                  dumpList := addToDumpList st.dumpList
                    ((f.h2.emod 4294967296).toNat / 65536)
                    ((f.h2.emod 4294967296).toNat % 65536) },
                ?_, Nat.le_refl _, fun h => h, fun h => absurd h hd, hOop⟩
              simp [processFileF, hd, hfs, h01, h1z, hde0]
          · refine ⟨1, { st with opened := st.opened ++ [(st.depth, fid)] },
              ?_, Nat.le_refl _, fun h => h, fun h => absurd h hd, hOop⟩
            simp [processFileF, hd, hfs, h01, h1z]
        · by_cases hsk1 : f.h0 < 3 ∨ 100 ≤ f.h0
          · refine ⟨1, { st with opened := st.opened ++ [(st.depth, fid)] },
              ?_, Nat.le_refl _, fun h => h, fun h => absurd h hd, hOop⟩
            simp [processFileF, hd, hfs, h01, hsk1]
          by_cases hsk2 : f.h0 = 3 ∧ st.depth = 0
          · refine ⟨1, { st with opened := st.opened ++ [(st.depth, fid)] },
              ?_, Nat.le_refl _, fun h => h, fun h => absurd h hd, hOop⟩
            simp [processFileF, hd, hfs, h01, hsk1, hsk2]
          by_cases hsk3 : f.h1 = 0x48
          · refine ⟨1, { st with opened := st.opened ++ [(st.depth, fid)] },
              ?_, Nat.le_refl _, fun h => h, fun h => absurd h hd, hOop⟩
            simp [processFileF, hd, hfs, h01, hsk1, hsk2, hsk3]
          by_cases hsk4 : f.h1 ≠ 0 ∨ f.h2 ≠ 0
          · refine ⟨1, { st with opened := st.opened ++ [(st.depth, fid)] },
              ?_, Nat.le_refl _, fun h => h, fun h => absurd h hd, hOop⟩
            simp [processFileF, hd, hfs, h01, hsk1, hsk2, hsk3, hsk4]
          by_cases hsk5 : f.hdr2 = false
          · refine ⟨1, { st with opened := st.opened ++ [(st.depth, fid)] },
              ?_, Nat.le_refl _, fun h => h, fun h => absurd h hd, hOop⟩
            simp [processFileF, hd, hfs, h01, hsk1, hsk2, hsk3, hsk4, hsk5]
          · -- the group-file scan
            have hchild : ∀ fid2 s, st.depth + 1 ≤ s.depth → s.depth ≤ 10 →
                ∃ r s', processFileF fs frag fuel fid2 s = some (r, s') ∧
                  s.depth ≤ s'.depth ∧ (s.depth ≤ 9 → s'.depth ≤ 9) ∧
                  (s.depth = 10 → r = 0 ∧ s' = s) ∧
                  (∀ x ∈ s'.opened, x ∈ s.opened ∨ x.1 ≤ 9) :=
              fun fid2 s hs1 hs2 => ih fid2 s hs2 (by omega)
            obtain ⟨st2, hscan, hlb2, h92, hop2⟩ :=
              scanLoop_props (processFileF fs frag fuel) st.depth hchild
                f.cmds.length f.cmds
                { st with opened := st.opened ++ [(st.depth, fid)] }
                (Nat.le_refl _) (Nat.le_refl st.depth) hd9
            have hopC : ∀ x ∈ st2.opened, x ∈ st.opened ∨ x.1 ≤ 9 :=
              fun x hx => (hop2 x hx).elim (fun h => hOop x h) Or.inr
            have hbool : f.hdr2 = true := by
              rcases Bool.eq_false_or_eq_true f.hdr2 with h | h
              · exact h
              · exact absurd h hsk5
            by_cases hz : st2.depth = 0
            · obtain ⟨hdd, hdo⟩ := dumpFromListM_state frag st2
              by_cases hrr : (dumpFromListM frag st2).1 ≠ 0
              · refine ⟨1, (dumpFromListM frag st2).2, ?_, ?_, ?_,
                  fun h => absurd h hd, ?_⟩
                · simp [processFileF, hd, hfs, h01, hsk1, hsk2, hsk3, hsk4,
                    hbool, hscan, hz, hrr]
                · rw [hdd]; exact hlb2
                · intro _; rw [hdd]; exact h92
                · rw [hdo]; exact hopC
              · refine ⟨0, (dumpFromListM frag st2).2, ?_, ?_, ?_,
                  fun h => absurd h hd, ?_⟩
                · simp [processFileF, hd, hfs, h01, hsk1, hsk2, hsk3, hsk4,
                    hbool, hscan, hz, hrr]
                · rw [hdd]; exact hlb2
                · intro _; rw [hdd]; exact h92
                · rw [hdo]; exact hopC
            · refine ⟨0, st2, ?_, hlb2, fun _ => h92, fun h => absurd h hd,
                hopC⟩
              simp [processFileF, hd, hfs, h01, hsk1, hsk2, hsk3, hsk4,
                hbool, hscan, hz]

/-- Claim C7: a processFile call at depth 10 returns success immediately
with the state untouched — no file is opened, nothing is scanned — and
the recursion terminates on every include graph (the model's stack-depth
fuel of 11 always suffices from depth 0); moreover every file open in a
whole run happens at depth 9 or less, so the recursion never descends
past depth 10. -/
theorem processFile_depth :
    (∀ (fs : Nat → Option BinFile) (frag : Nat → Frag) (fuel fid : Nat)
        (st : AsmState), st.depth = 10 →
        processFileF fs frag (fuel + 1) fid st = some (0, st)) ∧
    (∀ (fs : Nat → Option BinFile) (frag : Nat → Frag) (fid : Nat),
        ∃ r st', processFileF fs frag 11 fid initAsmState = some (r, st') ∧
          ∀ x ∈ st'.opened, x.1 ≤ 9) := by
  constructor
  · intro fs frag fuel fid st h
    simp [processFileF, h]
  · intro fs frag fid
    obtain ⟨r, st', heq, _, _, _, hop⟩ :=
      processFileF_props fs frag 11 fid initAsmState (by decide) (by decide)
    refine ⟨r, st', heq, fun x hx => ?_⟩
    rcases hop x hx with hx2 | hx2
    · exact absurd hx2 (List.not_mem_nil x)
    · exact hx2

theorem processFile_depth_wit :
    processFileF fsCyc frag0 (0 + 1) 0 st10Asm = some (0, st10Asm) ∧
    (∃ r st', processFileF fsCyc frag0 11 0 initAsmState = some (r, st') ∧
      ∀ x ∈ st'.opened, x.1 ≤ 9) :=
  ⟨processFile_depth.1 fsCyc frag0 0 0 st10Asm rfl,
   processFile_depth.2 fsCyc frag0 0⟩

/-! ## Claim C10: the composite bounds accumulator -/

theorem foldFragBounds_inv (st : AsmState) (x1 y1 x2 y2 : Int)
    (h : asmInv st) : asmInv (foldFragBounds st x1 y1 x2 y2) := by
  obtain ⟨h1, h2, h3, h4, h5⟩ := h
  refine ⟨?_, ?_, ?_, ?_, ?_⟩ <;>
    simp only [foldFragBounds]
  · split <;> omega
  · split <;> omega
  · split <;> omega
  · split <;> omega
  · exact h5

theorem dumpLoop_inv (frag : Nat → Frag) :
    ∀ (l : List (Nat × Nat)) (s : AsmState), asmInv s →
      asmInv (dumpLoop frag l s).2 := by
  intro l
  induction l with
  | nil => intro s h; exact h
  | cons e rest ih =>
    intro s h
    simp only [dumpLoop]
    cases frag e.1 with
    | missing => exact ih s h
    | bad => exact h
    | badNl x1 y1 x2 y2 => exact foldFragBounds_inv s x1 y1 x2 y2 h
    | ok x1 y1 x2 y2 => exact ih _ (foldFragBounds_inv s x1 y1 x2 y2 h)

theorem dumpFromListM_inv (frag : Nat → Frag) (s : AsmState)
    (h : asmInv s) : asmInv (dumpFromListM frag s).2 := by
  have hs1 : asmInv { s with dumpList := sortDumpList s.dumpList } := h
  have hloop := dumpLoop_inv frag (sortDumpList s.dumpList)
    { s with dumpList := sortDumpList s.dumpList } hs1
  simp only [dumpFromListM]
  split
  · exact hloop
  · obtain ⟨h1, h2, h3, h4, _⟩ := hloop
    refine ⟨h1, h2, h3, h4, ?_⟩
    intro a b c d heq
    simp only [Option.some.injEq, Prod.mk.injEq] at heq
    obtain ⟨ha, hb, hc, hd⟩ := heq
    exact ⟨ha ▸ h1, hb ▸ h2, hc ▸ h3, hd ▸ h4⟩

theorem scanLoop_inv (child : Nat → AsmState → Option (Nat × AsmState))
    (hchild : ∀ fid s, asmInv s → ∀ r s', child fid s = some (r, s') →
      asmInv s') :
    ∀ (n : Nat) (cmds : List Nat) (st : AsmState), cmds.length ≤ n →
      asmInv st → ∀ st', scanLoop child cmds st = some st' → asmInv st' := by
  intro n
  induction n with
  | zero =>
    intro cmds st hlen h st' heq
    rcases cmds with _ | ⟨c, rest⟩
    · cases heq; exact h
    · simp at hlen
  | succ n ih =>
    intro cmds st hlen h st' heq
    rcases cmds with _ | ⟨c, rest⟩
    · cases heq; exact h
    rcases rest with _ | ⟨inc, rest'⟩
    · simp only [scanLoop] at heq
      by_cases hc0 : c = 0
      · rw [if_pos hc0] at heq; cases heq; exact h
      rw [if_neg hc0] at heq
      by_cases hc34 : c = 3 ∨ c = 4
      · rw [if_pos hc34] at heq; cases heq; exact h
      · rw [if_neg hc34] at heq; cases heq; exact h
    · simp only [scanLoop] at heq
      have hlen2 : (inc :: rest').length ≤ n := by
        simp only [List.length_cons] at hlen ⊢; omega
      by_cases hc0 : c = 0
      · rw [if_pos hc0] at heq
        exact ih (inc :: rest') st hlen2 h st' heq
      rw [if_neg hc0] at heq
      by_cases hc34 : c = 3 ∨ c = 4
      · rw [if_pos hc34] at heq
        rcases hcall : child inc { st with depth := st.depth + 1 } with
          _ | ⟨r, s2⟩
        · rw [hcall] at heq; cases heq
        · simp only [hcall] at heq
          have hs2 : asmInv s2 :=
            hchild inc { st with depth := st.depth + 1 } h r s2 hcall
          by_cases hr : r ≠ 0
          · rw [if_pos hr] at heq; cases heq; exact hs2
          · rw [if_neg hr] at heq
            have hlen3 : rest'.length ≤ n := by
              simp only [List.length_cons] at hlen; omega
            exact ih rest' { s2 with depth := s2.depth - 1 } hlen3 hs2 st' heq
      · rw [if_neg hc34] at heq
        exact ih (inc :: rest') st hlen2 h st' heq

theorem processFileF_inv (fs : Nat → Option BinFile) (frag : Nat → Frag) :
    ∀ (fuel fid : Nat) (st : AsmState), asmInv st →
      ∀ r st', processFileF fs frag fuel fid st = some (r, st') →
        asmInv st' := by
  intro fuel
  induction fuel with
  | zero =>
    intro fid st h r st' heq
    simp [processFileF] at heq
  | succ fuel ih =>
    intro fid st h r st' heq
    simp only [processFileF] at heq
    by_cases hd : st.depth = 10
    · rw [if_pos hd] at heq
      cases heq
      exact h
    · rw [if_neg hd] at heq
      rcases hfs : fs fid with _ | f
      · simp only [hfs] at heq
        cases heq
        exact h
      · simp only [hfs] at heq
        split at heq
        · -- basic include branch
          split at heq
          · cases heq; exact h
          · split at heq
            · cases heq; exact h
            · cases heq; exact h
        · split at heq
          · cases heq; exact h
          · split at heq
            · cases heq; exact h
            · split at heq
              · cases heq; exact h
              · split at heq
                · cases heq; exact h
                · split at heq
                  · cases heq; exact h
                  · -- group scan branch
                    split at heq
                    · cases heq
                    · rename_i st2 hscan
                      have hst2 : asmInv st2 :=
                        scanLoop_inv (processFileF fs frag fuel)
                          (fun fid2 s hs r2 s2 hcall => ih fid2 s hs r2 s2 hcall)
                          f.cmds.length f.cmds
                          { st with opened := st.opened ++ [(st.depth, fid)] }
                          (Nat.le_refl _) h st2 hscan
                      split at heq
                      · split at heq
                        · cases heq; exact dumpFromListM_inv frag st2 hst2
                        · cases heq; exact dumpFromListM_inv frag st2 hst2
                      · cases heq; exact hst2

/-- Claim C10: starting from the initial accumulator (0, 0, 1, 1), every
assembler run that patches a composite viewBox patches bounds with
minX ≤ 0, minY ≤ 0, maxX ≥ 1 and maxY ≥ 1, whatever the fragment
viewboxes contain — the accumulator is only ever widened. -/
theorem assembler_bounds (fs : Nat → Option BinFile) (frag : Nat → Frag)
    (fuel fid r : Nat) (st' : AsmState)
    (heq : processFileF fs frag fuel fid initAsmState = some (r, st'))
    (a b c d : Int) (hp : st'.patched = some (a, b, c, d)) :
    a ≤ 0 ∧ b ≤ 0 ∧ 1 ≤ c ∧ 1 ≤ d := by
  have hinv : asmInv initAsmState :=
    ⟨le_refl 0, le_refl 0, le_refl 1, le_refl 1,
     fun a b c d h => Option.noConfusion h⟩
  exact (processFileF_inv fs frag fuel fid initAsmState hinv r st'
    heq).2.2.2.2 a b c d hp

theorem assembler_bounds_wit :
    processFileF fsOne frag0 11 0 initAsmState = some (0, stFinalOne) ∧
    stFinalOne.patched = some (0, 0, 1, 1) ∧
    ((0 : Int) ≤ 0 ∧ (0 : Int) ≤ 0 ∧ (1 : Int) ≤ 1 ∧ (1 : Int) ≤ 1) :=
  ⟨rfl, rfl, assembler_bounds fsOne frag0 11 0 0 stFinalOne rfl 0 0 1 1 rfl⟩
